import Mathlib

/-!
Verification of the starry-next user-process runtime against its
natural-language specification.

Each section shallowly embeds one part of the Rust source:

* `axmm::AddrSpace::find_free_area` (src/.arceos/modules/axmm/src/aspace.rs)
* `axmm::Backend::map_alloc` (src/.arceos/modules/axmm/src/backend/alloc.rs)
* `Pipe::write` (src/api/src/file/pipe.rs)
* `sys_exit` / `sys_waitpid` (src/api/src/imp/task/{exit,wait}.rs)
* `sys_rt_sigprocmask`, `sys_rt_sigsuspend`, `sys_sigaltstack`
  (src/api/src/imp/signal.rs)
* `sys_clone` flag validation (src/api/src/imp/task/clone.rs)
* `sys_futex` FUTEX_WAIT path (src/api/src/imp/futex.rs,
  src/core/src/futex.rs)
* `FD_TABLE::copy_inner` (src/api/src/file/mod.rs)

Machine integers are embedded as `Nat` (or `Int` with explicit wrapping
where i32 overflow matters); fallible operations return `Except` or
`Option`.
-/

/-- The POSIX-style error kinds used by the embedded syscalls
(`axerrno::LinuxError`). -/
inductive LinuxErr where
  | EPERM
  | EAGAIN
  | EINVAL
  | ENOMEM
  | EFAULT
  | EPIPE
  | ECHILD
  | ENOSYS
  | EBADF
  | EMFILE
  | EEXIST
  deriving DecidableEq, Repr

/-! ## §C1: `AddrSpace::find_free_area`

From src/.arceos/modules/axmm/src/aspace.rs lines 130-167.  Virtual
addresses are `Nat`; `memory_addr::align_up` for the power-of-two page
sizes equals the division formula below.  A `MemorySet` iterates its
areas in ascending `start` order, so the embedding takes the area list
sorted by `start`. -/

/-- `memory_addr::align_up`: round `addr` up to a multiple of `align`. -/
def alignUp (addr align : Nat) : Nat :=
  (addr + align - 1) / align * align

/-- `memory_set::MemoryArea`: the part relevant here is the half-open
interval `[start, start + size)`. -/
structure MemoryArea where
  start : Nat
  size : Nat
  deriving DecidableEq, Repr

/-- `MemoryArea::end()`: `start + size`. -/
def MemoryArea.endAddr (a : MemoryArea) : Nat :=
  a.start + a.size

/-- Half-open interval overlap, as in `VirtAddrRange::overlaps`. -/
def rangesOverlap (s1 e1 s2 e2 : Nat) : Bool :=
  decide (s1 < e2) && decide (s2 < e1)

/-- First loop of `find_free_area`: advance `last_end` past areas that
end at or before it, breaking at the first area that does not. -/
def ffaFirstLoop (align : Nat) : List MemoryArea → Nat → Nat
  | [], lastEnd => lastEnd
  | a :: rest, lastEnd =>
    if a.endAddr ≤ lastEnd then
      ffaFirstLoop align rest (max lastEnd (alignUp a.endAddr align))
    else
      lastEnd

/-- Second loop of `find_free_area`: scan all areas again; skip areas
starting below the candidate, accept the first gap of at least `size`
before an area, otherwise jump past the area.  After the loop, accept
the candidate iff `last_end + size <= limit.end`.  (`checked_add` on
`usize` is total on `Nat`.) -/
def ffaSecondLoop (size align limitEnd : Nat) : List MemoryArea → Nat → Option Nat
  | [], lastEnd =>
    if lastEnd + size ≤ limitEnd then some lastEnd else none
  | a :: rest, lastEnd =>
    if a.start < lastEnd then
      ffaSecondLoop size align limitEnd rest lastEnd
    else if lastEnd + size ≤ a.start then
      some lastEnd
    else
      ffaSecondLoop size align limitEnd rest (alignUp a.endAddr align)

/-- `AddrSpace::find_free_area(hint, size, limit, align)`, with the
address space's areas given as a list sorted by `start` and the limit
range `[limitStart, limitEnd)`. -/
def find_free_area (areas : List MemoryArea) (hint size limitStart limitEnd align : Nat) :
    Option Nat :=
  ffaSecondLoop size align limitEnd areas
    (ffaFirstLoop align areas (alignUp (max hint limitStart) align))

/-- C1: the claim asserts that a `Some(s)` answer of `find_free_area`
satisfies `s + n ≤ limit.end` and that `[s, s+n)` overlaps no existing
area.  The code violates both: the early return inside the scan loop
never checks `limit.end`, so with one area `[0x5000, 0x6000)`,
`find_free_area(hint = 0, size = 0x1000, limit = [0, 0x500), align = 0x1000)`
returns `Some(0)` although `0 + 0x1000 > 0x500`; and a hint inside an
existing area is returned unchanged, so with one area `[0x1000, 0x3000)`,
`find_free_area(hint = 0x2000, size = 0x1000, limit = [0, 0x100000), align = 0x1000)`
returns `Some(0x2000)`, which overlaps the area.  This contradicts the
function's own doc comment ("The region must be fully contained within
the `limit` range (`end <= limit.end`)" and "Skip overlapping and
already occupied regions"). -/
theorem C1_find_free_area_violations :
    (find_free_area [⟨0x5000, 0x1000⟩] 0 0x1000 0 0x500 0x1000 = some 0 ∧
      ¬ ((0 : Nat) + 0x1000 ≤ 0x500)) ∧
    (find_free_area [⟨0x1000, 0x2000⟩] 0x2000 0x1000 0 0x100000 0x1000 = some 0x2000 ∧
      rangesOverlap 0x2000 (0x2000 + 0x1000) 0x1000 0x3000 = true) := by
  constructor
  · exact ⟨rfl, by decide⟩
  · exact ⟨rfl, by decide⟩

/-! ## §C2: `AddrSpace::map_alloc` with `populate = true`

From src/.arceos/modules/axmm/src/aspace.rs lines 207-222 and
src/.arceos/modules/axmm/src/backend/alloc.rs lines 68-100.  The page
table is an association list from page-aligned virtual addresses to
physical frame addresses; the frame allocator is a supply list of frame
addresses; physical memory is a byte map.  Mapping permission flags are
not modelled (no claim mentions them). -/

/-- `axerrno::AxError` kinds reachable from the embedded mapping code. -/
inductive AxErr where
  | InvalidInput
  | AlreadyExists
  | NoMemory
  | BadState
  | BadAddress
  deriving DecidableEq, Repr

/-- Memory-management state: page table, frame-allocator supply, and
physical memory contents. -/
structure MmState where
  pt : List (Nat × Nat)
  supply : List Nat
  pmem : Nat → Nat

/-- Page-table lookup (`PageTable::query` restricted to presence and
the frame address). -/
def ptLookup (pt : List (Nat × Nat)) (va : Nat) : Option Nat :=
  (pt.find? (fun e => e.1 = va)).map (fun e => e.2)

/-- `PageTable::map`: fails if the page is already mapped, otherwise
records the new entry. -/
def ptMapIns (pt : List (Nat × Nat)) (va fr : Nat) : Option (List (Nat × Nat)) :=
  if (ptLookup pt va).isSome then none else some ((va, fr) :: pt)

/-- Overwrite `len` bytes starting at `base` with zero
(`core::ptr::write_bytes(vaddr, 0, page_size)`). -/
def zeroRange (f : Nat → Nat) (base len : Nat) : Nat → Nat :=
  fun a => if base ≤ a ∧ a < base + len then 0 else f a

/-- `alloc_frame(zeroed = true, align)`: pop one frame from the global
allocator and zero-fill it; `None` when the allocator fails. -/
def allocFrame (align : Nat) (mm : MmState) : Option (Nat × MmState) :=
  match mm.supply with
  | [] => none
  | fr :: rest =>
    some (fr, { mm with supply := rest, pmem := zeroRange mm.pmem fr align })

/-- The pages visited by `PageIterWrapper::new(start, start + size, align)`
on an aligned range: `start, start + align, ...`. -/
def pageList (start size align : Nat) : List Nat :=
  (List.range (size / align)).map (fun i => start + i * align)

/-- The `populate` loop of `Backend::map_alloc`: allocate a zeroed frame
per page and install the PTE.  An allocation failure silently skips the
page ("allocate all possible physical frames"); a `pt.map` failure
returns `false` (`none` here). -/
def mapAllocPages (align : Nat) : List Nat → MmState → Option MmState
  | [], mm => some mm
  | p :: rest, mm =>
    match allocFrame align mm with
    | none => mapAllocPages align rest mm
    | some (fr, mm1) =>
      match ptMapIns mm1.pt p fr with
      | none => none
      | some pt2 => mapAllocPages align rest { mm1 with pt := pt2 }

/-- `Backend::map_alloc(start, size, flags, pt, populate, align)`:
with `populate` the per-page loop runs when `PageIterWrapper::new`
yields an iterator (aligned bounds), otherwise the loop is skipped and
the call still reports success; without `populate` nothing is mapped. -/
def backendMapAlloc (align start size : Nat) (populate : Bool) (mm : MmState) :
    Option MmState :=
  if populate then
    if start % align = 0 ∧ (start + size) % align = 0 then
      mapAllocPages align (pageList start size align) mm
    else
      some mm
  else
    some mm

/-- The address-space state used by `AddrSpace::map_alloc`: the range
`[vaStart, vaEnd)`, the area list sorted by start, and the mm state. -/
structure AddrSpaceM where
  vaStart : Nat
  vaEnd : Nat
  areas : List MemoryArea
  mm : MmState

/-- Insert an area into the start-sorted area list. -/
def insertArea : List MemoryArea → MemoryArea → List MemoryArea
  | [], a => [a]
  | b :: rest, a =>
    if a.start ≤ b.start then a :: b :: rest else b :: insertArea rest a

/-- `AddrSpace::map_alloc(start, size, flags, populate, align)`:
`validate_region` (containment and alignment, `InvalidInput` on
failure), then `MemorySet::map` — modelled from the spec for the part
outside src/ (the `memory_set` crate): overlap with an existing area
yields `AlreadyExists`, a backend failure a `BadState` error, otherwise
the area is inserted. -/
def map_alloc (asp : AddrSpaceM) (start size : Nat) (populate : Bool) (align : Nat) :
    Except AxErr AddrSpaceM :=
  if ¬ (asp.vaStart ≤ start ∧ start + size ≤ asp.vaEnd) then
    .error .InvalidInput
  else if ¬ (start % align = 0 ∧ size % align = 0) then
    .error .InvalidInput
  else if asp.areas.any (fun a => rangesOverlap a.start a.endAddr start (start + size)) then
    .error .AlreadyExists
  else
    match backendMapAlloc align start size populate asp.mm with
    | none => .error .BadState
    | some mm2 =>
      .ok { asp with areas := insertArea asp.areas ⟨start, size⟩, mm := mm2 }

/-- Looking up in a page table extended by one entry. -/
theorem ptLookup_cons (pt : List (Nat × Nat)) (p fr va : Nat) :
    ptLookup ((p, fr) :: pt) va = if p = va then some fr else ptLookup pt va := by
  simp only [ptLookup, List.find?]
  by_cases h : p = va
  · simp [h]
  · simp [h]

/-- The populate loop never removes page-table entries. -/
theorem mapAllocPages_pt_preserve (align : Nat) :
    ∀ (ps : List Nat) (mm mm2 : MmState),
      mapAllocPages align ps mm = some mm2 →
      ∀ va fr, ptLookup mm.pt va = some fr → ptLookup mm2.pt va = some fr := by
  intro ps
  induction ps with
  | nil =>
    intro mm mm2 h va fr hva
    simp only [mapAllocPages] at h
    cases h
    exact hva
  | cons p rest ih =>
    intro mm mm2 h va fr hva
    cases hs : mm.supply with
    | nil =>
      simp only [mapAllocPages, allocFrame, hs] at h
      exact ih mm mm2 h va fr hva
    | cons f srest =>
      simp only [mapAllocPages, allocFrame, hs] at h
      by_cases hp : (ptLookup mm.pt p).isSome
      · simp only [ptMapIns, hp, if_true] at h
        exact Option.noConfusion h
      · simp only [ptMapIns, hp, if_false, Bool.false_eq_true] at h
        refine ih _ mm2 h va fr ?_
        rw [ptLookup_cons]
        split
        · rename_i hpv
          rw [← hpv] at hva
          rw [hva] at hp
          simp at hp
        · exact hva

/-- `zeroRange` writes nothing but zeros, so zero bytes stay zero. -/
theorem zeroRange_keep_zero (f : Nat → Nat) (base len a : Nat) (h : f a = 0) :
    zeroRange f base len a = 0 := by
  unfold zeroRange
  split
  · rfl
  · exact h

/-- The populate loop only writes zeros to physical memory. -/
theorem mapAllocPages_pmem_zero (align : Nat) :
    ∀ (ps : List Nat) (mm mm2 : MmState),
      mapAllocPages align ps mm = some mm2 →
      ∀ a, mm.pmem a = 0 → mm2.pmem a = 0 := by
  intro ps
  induction ps with
  | nil =>
    intro mm mm2 h a ha
    simp only [mapAllocPages] at h
    cases h
    exact ha
  | cons p rest ih =>
    intro mm mm2 h a ha
    cases hs : mm.supply with
    | nil =>
      simp only [mapAllocPages, allocFrame, hs] at h
      exact ih mm mm2 h a ha
    | cons f srest =>
      simp only [mapAllocPages, allocFrame, hs] at h
      by_cases hp : (ptLookup mm.pt p).isSome
      · simp only [ptMapIns, hp, if_true] at h
        exact Option.noConfusion h
      · simp only [ptMapIns, hp, if_false, Bool.false_eq_true] at h
        exact ih _ mm2 h a (zeroRange_keep_zero _ _ _ _ ha)

/-- Core invariant of the populate loop: with pairwise-distinct pages
that are not yet mapped and an allocator holding at least one frame per
page, the loop succeeds and every page ends up mapped to a zero-filled
frame taken from the supply. -/
theorem mapAllocPages_resident (align : Nat) :
    ∀ (ps : List Nat) (mm : MmState),
      ps.Nodup →
      (∀ p ∈ ps, ptLookup mm.pt p = none) →
      ps.length ≤ mm.supply.length →
      ∃ mm2, mapAllocPages align ps mm = some mm2 ∧
        ∀ p ∈ ps, ∃ fr, fr ∈ mm.supply ∧ ptLookup mm2.pt p = some fr ∧
          ∀ off, off < align → mm2.pmem (fr + off) = 0 := by
  intro ps
  induction ps with
  | nil =>
    intro mm _ _ _
    exact ⟨mm, rfl, by simp⟩
  | cons p rest ih =>
    intro mm hnd hnone hlen
    cases hs : mm.supply with
    | nil =>
      rw [hs] at hlen
      simp at hlen
    | cons fr srest =>
      have hp : ptLookup mm.pt p = none := hnone p (List.mem_cons_self _ _)
      have hpsome : (ptLookup mm.pt p).isSome = false := by rw [hp]; rfl
      have hpnot : p ∉ rest := (List.nodup_cons.mp hnd).1
      -- the state after allocating and mapping the head page
      have hrec := ih { mm with
          supply := srest,
          pmem := zeroRange mm.pmem fr align,
          pt := (p, fr) :: mm.pt }
        (List.nodup_cons.mp hnd).2
        (by
          intro q hq
          rw [ptLookup_cons]
          split
          · rename_i hpq
            exact absurd (hpq ▸ hq) hpnot
          · exact hnone q (List.mem_cons_of_mem _ hq))
        (by
          rw [hs] at hlen
          simpa using hlen)
      obtain ⟨mm2, hrun, hprops⟩ := hrec
      refine ⟨mm2, ?_, ?_⟩
      · simp only [mapAllocPages, allocFrame, hs, ptMapIns, hpsome, Bool.false_eq_true,
          if_false]
        exact hrun
      · intro q hq
        rcases List.mem_cons.mp hq with hqp | hqrest
        · refine ⟨fr, List.mem_cons_self _ _, ?_, ?_⟩
          · refine mapAllocPages_pt_preserve align rest _ mm2 hrun q fr ?_
            rw [ptLookup_cons]
            simp [hqp]
          · intro off hoff
            refine mapAllocPages_pmem_zero align rest _ mm2 hrun (fr + off) ?_
            show zeroRange mm.pmem fr align (fr + off) = 0
            unfold zeroRange
            rw [if_pos ⟨Nat.le_add_right _ _, Nat.add_lt_add_left hoff fr⟩]
        · obtain ⟨fr2, hfr2, hlook, hzero⟩ := hprops q hqrest
          exact ⟨fr2, List.mem_cons_of_mem _ hfr2, hlook, hzero⟩

/-- The page list of an area is duplicate-free. -/
theorem pageList_nodup (start size align : Nat) (h : 0 < align) :
    (pageList start size align).Nodup := by
  unfold pageList
  refine List.Nodup.map ?_ (List.nodup_range _)
  intro a b hab
  exact Nat.eq_of_mul_eq_mul_right h (Nat.add_left_cancel hab)

/-- C2: the claim — after `map_alloc(.., populate = true)` returns `Ok`,
every page of the area is resident — fails when the frame allocator
cannot satisfy a request: `Backend::map_alloc` silently skips such a
page and still reports success.  With an empty allocator,
`map_alloc(0x1000, 0x1000, populate = true, 4K)` returns `Ok`, an area
is created, but the single page has no page-table entry. -/
def asC2 : AddrSpaceM where
  vaStart := 0
  vaEnd := 0x100000
  areas := []
  mm := { pt := [], supply := [], pmem := fun _ => 0 }

/-- C2 counterexample: `map_alloc` with an exhausted frame allocator
returns `Ok` although the (single) page of the new area is not mapped. -/
theorem C2_counterexample_alloc_failure :
    (map_alloc asC2 0x1000 0x1000 true 0x1000).map
      (fun a2 => (ptLookup a2.mm.pt 0x1000, a2.areas.length)) = .ok (none, 1) := by
  rfl

/-- C2 (amended): if the frame allocator can satisfy one request per
page and the page table holds no stale entries on the target range,
then after `map_alloc(start, size, flags, populate = true, align)`
returns `Ok`, every page of `[start, start + size)` has a page-table
entry backed by a frame taken from the allocator whose bytes are all
zero. -/
theorem C2_map_alloc_populate_resident
    (asp : AddrSpaceM) (start size align : Nat) (asp2 : AddrSpaceM)
    (halign : 0 < align)
    (hfresh : ∀ p ∈ pageList start size align, ptLookup asp.mm.pt p = none)
    (hsupply : size / align ≤ asp.mm.supply.length)
    (hok : map_alloc asp start size true align = .ok asp2) :
    ∀ p ∈ pageList start size align,
      ∃ fr, fr ∈ asp.mm.supply ∧ ptLookup asp2.mm.pt p = some fr ∧
        ∀ off, off < align → asp2.mm.pmem (fr + off) = 0 := by
  unfold map_alloc at hok
  split at hok
  · exact Except.noConfusion hok
  · split at hok
    · exact Except.noConfusion hok
    · split at hok
      · exact Except.noConfusion hok
      · rename_i hin hal hov
        have halcon : start % align = 0 ∧ size % align = 0 := not_not.mp hal
        have hsum : (start + size) % align = 0 := by
          rw [Nat.add_mod, halcon.1, halcon.2]
          simp
        have hlen : (pageList start size align).length = size / align := by
          simp [pageList]
        obtain ⟨mm2, hrun, hprops⟩ :=
          mapAllocPages_resident align (pageList start size align) asp.mm
            (pageList_nodup start size align halign) hfresh (hlen ▸ hsupply)
        have hbm : backendMapAlloc align start size true asp.mm = some mm2 := by
          unfold backendMapAlloc
          rw [if_pos rfl, if_pos ⟨halcon.1, hsum⟩]
          exact hrun
        rw [hbm] at hok
        cases hok
        intro p hp
        exact hprops p hp

/-- Concrete one-page address space whose allocator holds one frame. -/
def asC2w : AddrSpaceM where
  vaStart := 0
  vaEnd := 0x100000
  areas := []
  mm := { pt := [], supply := [0x8000], pmem := fun _ => 7 }

/-- The state `map_alloc asC2w 0x1000 0x1000 true 0x1000` produces. -/
def asC2wR : AddrSpaceM where
  vaStart := 0
  vaEnd := 0x100000
  areas := [⟨0x1000, 0x1000⟩]
  mm :=
    { pt := [(0x1000, 0x8000)],
      supply := [],
      pmem := zeroRange (fun _ => 7) 0x8000 0x1000 }

/-- C2 witness: the amended theorem applied to the concrete one-page
mapping; page `0x1000` is mapped to the allocator's frame with all of
its bytes zero. -/
theorem C2_map_alloc_populate_resident_witness :
    ∃ fr, fr ∈ asC2w.mm.supply ∧ ptLookup asC2wR.mm.pt 0x1000 = some fr ∧
      ∀ off, off < 0x1000 → asC2wR.mm.pmem (fr + off) = 0 :=
  C2_map_alloc_populate_resident asC2w 0x1000 0x1000 0x1000 asC2wR
    (by decide) (by decide) (by decide) rfl 0x1000 (by decide)

/-! ## §C3: `Pipe::write`

From src/api/src/file/pipe.rs.  The ring buffer is embedded literally
(byte array as a function, head/tail indices, tri-state status).  The
writer's interaction with the environment is captured by `closedAt`,
giving the answer of the k-th `self.closed()` query (query 0 is the
entry check), and by a fuel bound on loop iterations; no reader runs
concurrently, so the buffer drains only through the writer itself. -/

/-- `RingBufferStatus`. -/
inductive RingStatus where
  | Full
  | Empty
  | Normal
  deriving DecidableEq, Repr

/-- `RING_BUFFER_SIZE`. -/
def RING_BUFFER_SIZE : Nat := 256

/-- `PipeRingBuffer`. -/
structure PipeRingBuffer where
  arr : Nat → Nat
  head : Nat
  tail : Nat
  status : RingStatus

/-- `PipeRingBuffer::write_byte`: store at `tail`, advance `tail`
modulo the capacity, set status `Full` when the indices meet and
`Normal` otherwise. -/
def writeByte (rb : PipeRingBuffer) (b : Nat) : PipeRingBuffer :=
  let newTail := (rb.tail + 1) % RING_BUFFER_SIZE
  { arr := Function.update rb.arr rb.tail b
    head := rb.head
    tail := newTail
    status := if newTail = rb.head then .Full else .Normal }

/-- `PipeRingBuffer::available_read`. -/
def availableRead (rb : PipeRingBuffer) : Nat :=
  if rb.status = .Empty then 0
  else if rb.tail > rb.head then rb.tail - rb.head
  else rb.tail + RING_BUFFER_SIZE - rb.head

/-- `PipeRingBuffer::available_write`. -/
def availableWrite (rb : PipeRingBuffer) : Nat :=
  if rb.status = .Full then 0 else RING_BUFFER_SIZE - availableRead rb

/-- Result of a `Pipe::write` call.  `blocked n` means the call has not
returned within the given iteration fuel — it is still yielding and
retrying — with `n` bytes written so far. -/
inductive PipeWriteRes where
  | ok (n : Nat)
  | eperm
  | epipe
  | blocked (n : Nat)
  deriving DecidableEq, Repr

/-- The inner `for _ in 0..loop_write` loop of `Pipe::write`: up to `k`
iterations, each first returning `Ok(write_size)` when the whole buffer
has been written and otherwise copying one byte into the ring.  Yields
the ring buffer, the new `write_size`, and whether the early `return`
was taken. -/
def pipeWriteBurst (buf : List Nat) : Nat → PipeRingBuffer → Nat → PipeRingBuffer × Nat × Bool
  | 0, rb, ws => (rb, ws, false)
  | k + 1, rb, ws =>
    if ws = buf.length then (rb, ws, true)
    else pipeWriteBurst buf k (writeByte rb (buf.getD ws 0)) (ws + 1)

/-- The outer `loop` of `Pipe::write`: on a full buffer, return the
partial count when the peer is closed and otherwise yield and retry;
on a non-full buffer, run the inner burst.  `q` indexes the
`self.closed()` queries; the fuel bounds the number of iterations. -/
def pipeWriteLoop (closedAt : Nat → Bool) (buf : List Nat) :
    Nat → PipeRingBuffer → Nat → Nat → PipeWriteRes
  | 0, _, _, ws => .blocked ws
  | fuel + 1, rb, q, ws =>
    if availableWrite rb = 0 then
      if closedAt q then .ok ws
      else pipeWriteLoop closedAt buf fuel rb (q + 1) ws
    else
      match pipeWriteBurst buf (availableWrite rb) rb ws with
      | (_, ws2, true) => .ok ws2
      | (rb2, ws2, false) => pipeWriteLoop closedAt buf fuel rb2 q ws2

/-- `Pipe::write(buf)`: `EPERM` on a read endpoint, `EPIPE` when the
peer is already closed at entry, `Ok(0)` on an empty buffer, else the
write loop. -/
def pipeWrite (readable : Bool) (closedAt : Nat → Bool) (buf : List Nat) (fuel : Nat)
    (rb : PipeRingBuffer) : PipeWriteRes :=
  if readable then .eperm
  else if closedAt 0 then .epipe
  else if buf.length = 0 then .ok 0
  else pipeWriteLoop closedAt buf fuel rb 1 0

/-- The empty ring buffer a fresh pipe starts with. -/
def emptyRb : PipeRingBuffer where
  arr := fun _ => 0
  head := 0
  tail := 0
  status := .Empty

/-- A full ring buffer. -/
def fullRb : PipeRingBuffer where
  arr := fun _ => 0
  head := 0
  tail := 0
  status := .Full

set_option maxRecDepth 4000 in
/-- C3 counterexample: the claim says that when the 256-byte ring fills
in the middle of a write the call returns the partial count instead of
waiting.  Writing 300 bytes into an empty pipe whose peer stays alive
fills the ring after 256 bytes, and the call then yields and retries
indefinitely (still unreturned after 5 loop iterations) instead of
returning `Ok(256)`. -/
theorem C3_counterexample_partial_return :
    pipeWrite false (fun _ => false) (List.replicate 300 65) 5 emptyRb = .blocked 256 ∧
    PipeWriteRes.blocked 256 ≠ .ok 256 := by
  exact ⟨by decide, by decide⟩

/-- C3 (amended): the writer returns `EPIPE` when the peer is closed at
the start of the call; while the ring buffer is full it returns the
partial count written so far if the peer is found closed, and otherwise
yields and retries — with the peer alive throughout it never returns,
whatever the iteration fuel. -/
theorem C3_pipe_write_semantics (closedAt : Nat → Bool) (buf : List Nat)
    (rb : PipeRingBuffer) (fuel q ws : Nat) :
    (closedAt 0 = true → pipeWrite false closedAt buf fuel rb = .epipe) ∧
    (availableWrite rb = 0 → closedAt q = true →
      pipeWriteLoop closedAt buf (fuel + 1) rb q ws = .ok ws) ∧
    (availableWrite rb = 0 → (∀ i, closedAt i = false) →
      pipeWriteLoop closedAt buf fuel rb q ws = .blocked ws) ∧
    (availableWrite rb = 0 → buf.length ≠ 0 → (∀ i, closedAt i = false) →
      pipeWrite false closedAt buf fuel rb = .blocked 0) := by
  have hblocked : ∀ (f qq w : Nat), availableWrite rb = 0 → (∀ i, closedAt i = false) →
      pipeWriteLoop closedAt buf f rb qq w = .blocked w := by
    intro f
    induction f with
    | zero =>
      intro qq w _ _
      rfl
    | succ f ih =>
      intro qq w hfull hopen
      simp only [pipeWriteLoop, hfull, if_true, hopen qq, Bool.false_eq_true, if_false]
      exact ih (qq + 1) w hfull hopen
  refine ⟨?_, ?_, ?_, ?_⟩
  · intro hc
    simp only [pipeWrite, hc, Bool.false_eq_true, if_false, if_true]
  · intro hfull hc
    simp only [pipeWriteLoop, hfull, if_true, hc, if_true]
  · intro hfull hopen
    exact hblocked fuel q ws hfull hopen
  · intro hfull hne hopen
    simp only [pipeWrite, hopen 0, Bool.false_eq_true, if_false, hne]
    exact hblocked fuel 1 0 hfull hopen

/-- C3 witness: the amended semantics at concrete inputs — `EPIPE` on a
closed peer at entry, partial count `7` returned on a full buffer with
the peer closed, and a two-byte write to a full pipe with a live peer
still unreturned. -/
theorem C3_pipe_write_semantics_witness :
    pipeWrite false (fun _ => true) [1, 2] 0 fullRb = .epipe ∧
    pipeWriteLoop (fun _ => true) [1, 2] 1 fullRb 0 7 = .ok 7 ∧
    pipeWriteLoop (fun _ => false) [1, 2] 3 fullRb 0 7 = .blocked 7 ∧
    pipeWrite false (fun _ => false) [1, 2] 3 fullRb = .blocked 0 :=
  ⟨(C3_pipe_write_semantics (fun _ => true) [1, 2] fullRb 0 0 7).1 rfl,
   (C3_pipe_write_semantics (fun _ => true) [1, 2] fullRb 0 0 7).2.1 (by decide) rfl,
   (C3_pipe_write_semantics (fun _ => false) [1, 2] fullRb 3 0 7).2.2.1 (by decide)
     (fun _ => rfl),
   (C3_pipe_write_semantics (fun _ => false) [1, 2] fullRb 3 0 7).2.2.2 (by decide)
     (by decide) (fun _ => rfl)⟩

/-! ## §C4: `sys_exit` and `sys_waitpid`

From src/api/src/imp/task/exit.rs lines 61-63 (`sys_exit` shifts the
exit code left by 8 before `do_exit`) and src/api/src/imp/task/wait.rs
(`sys_waitpid` writes the stored code raw).  The `axprocess` crate that
stores the code between the two calls is not under src/; its
pass-through storage is modelled from the spec.  i32 arithmetic wraps
modulo 2^32. -/

/-- Two's-complement wrap of an `Int` into i32. -/
def wrap32 (x : Int) : Int :=
  (x + 2 ^ 31) % 2 ^ 32 - 2 ^ 31

/-- The per-child process state visible to `sys_waitpid`. -/
structure ChildProc where
  pid : Nat
  group : Nat
  zombie : Bool
  exitCode : Int
  deriving DecidableEq, Repr

/-- Modelled from the spec: the `axprocess` `Thread::exit` /
`Process::exit` pair invoked by `do_exit` — "Mark the thread exited
with `code`.  If this is the process's last live thread, mark the
process a zombie"; for a single-threaded process the code is stored
unchanged and the process becomes a zombie. -/
def do_exit_store (code : Int) (c : ChildProc) : ChildProc :=
  { c with zombie := true, exitCode := code }

/-- `sys_exit(exit_code)`: calls `do_exit(exit_code << 8, false)`. -/
def sys_exit (code : Int) (c : ChildProc) : ChildProc :=
  do_exit_store (wrap32 (code * 256)) c

/-- Modelled from the spec: the child process created by `clone` with
`exit_signal = SIGCHLD` in the flag word's low byte and no `THREAD`
flag — a fresh non-zombie process entered into the parent's children
list under the new task id. -/
def clone_child (tid g : Nat) : ChildProc where
  pid := tid
  group := g
  zombie := false
  exitCode := 0

/-- The `WaitPid` selector of src/api/src/imp/task/wait.rs. -/
inductive WaitPidSel where
  | any
  | onePid (p : Nat)
  | pgid (g : Nat)
  deriving DecidableEq, Repr

/-- The `pid` argument decoding of `sys_waitpid`. -/
def waitpidSel (pid : Int) (curGroup : Nat) : WaitPidSel :=
  if pid = -1 then .any
  else if pid = 0 then .pgid curGroup
  else if pid > 0 then .onePid pid.toNat
  else .pgid (-pid).toNat

/-- `WaitPid::apply`. -/
def selApply (s : WaitPidSel) (c : ChildProc) : Bool :=
  match s with
  | .any => true
  | .onePid p => decide (c.pid = p)
  | .pgid g => decide (c.group = g)

/-- Result of `sys_waitpid`: `ok pid written freed` carries the
returned pid, the status value written through `exit_code_ptr` (when
non-null), and the reaped child (unless `WNOWAIT`); `blockedWait` means
the call keeps yielding because no selected child is a zombie and
`WNOHANG` is absent. -/
inductive WaitRes where
  | ok (pid : Nat) (written : Option Int) (freed : Option Nat)
  | echild
  | blockedWait
  deriving DecidableEq, Repr

/-- `WNOHANG`. -/
def WNOHANG : Nat := 1

/-- `WNOWAIT`. -/
def WNOWAIT : Nat := 0x1000000

/-- `sys_waitpid(pid, exit_code_ptr, options)` over a static children
list: decode the selector, filter the children (`ECHILD` when none),
and return the first zombie child's pid after optionally reaping it and
writing its stored exit code. -/
def sys_waitpid (pid : Int) (writeStatus : Bool) (options : Nat) (curGroup : Nat)
    (children : List ChildProc) : WaitRes :=
  let sel := waitpidSel pid curGroup
  let cs := children.filter (fun c => selApply sel c)
  if cs.isEmpty then .echild
  else
    match cs.find? (fun c => c.zombie) with
    | some c =>
      .ok c.pid (if writeStatus then some c.exitCode else none)
        (if options &&& WNOWAIT = WNOWAIT then none else some c.pid)
    | none =>
      if options &&& WNOHANG = WNOHANG then .ok 0 none none else .blockedWait

/-- Modelled from the spec: the libc `WEXITSTATUS` macro,
`(s >> 8) & 0xff`, for a non-negative status value. -/
def WEXITSTATUS (s : Int) : Int :=
  s / 256 % 256

/-- C4: fork-and-wait.  A single-threaded process clones a child with
`exit_signal = SIGCHLD`; the child calls `exit(42)`; the parent's
`waitpid(-1, &s, 0)` then returns the child's pid, reaps it, and the
status written to `s` is `42 << 8`, so `WEXITSTATUS(s) = 42`. -/
theorem C4_fork_exit_wait (tid g : Nat) :
    sys_waitpid (-1) true 0 g [sys_exit 42 (clone_child tid g)] =
      .ok tid (some (42 * 256)) (some tid) ∧
    WEXITSTATUS (42 * 256) = 42 := by
  constructor
  · simp [sys_waitpid, waitpidSel, selApply, sys_exit, clone_child, do_exit_store, wrap32,
      List.filter, List.find?, WNOWAIT]
  · rfl

/-! ## §C5, §C9: `sys_rt_sigprocmask` and `sys_rt_sigsuspend`

From src/api/src/imp/signal.rs lines 78-108 and 322-350.  An
`axsignal::SignalSet` is a u64 bitmask in which signal `n` occupies bit
`n - 1`; `with_blocked_mut` hands the handler plain mutable access to
the thread's blocked mask.  `SIGKILL = 9`, `SIGSTOP = 19`. -/

/-- Bit value of a signal number in a `SignalSet`. -/
def sigBit (signo : Nat) : Nat :=
  1 <<< (signo - 1)

/-- `SignalSet::contains`. -/
def sigContains (s signo : Nat) : Bool :=
  s.testBit (signo - 1)

/-- All 64 bits of a u64. -/
def MASK64 : Nat :=
  2 ^ 64 - 1

/-- u64 bitwise complement (`!` on u64). -/
def sigNotU64 (s : Nat) : Nat :=
  MASK64 ^^^ (s &&& MASK64)

/-- `SignalSet::remove(signo)`: clear the signal's bit. -/
def sigRemove (s signo : Nat) : Nat :=
  s &&& sigNotU64 (sigBit signo)

/-- `SIG_BLOCK`. -/
def SIG_BLOCK : Nat := 0

/-- `SIG_UNBLOCK`. -/
def SIG_UNBLOCK : Nat := 1

/-- `SIG_SETMASK`. -/
def SIG_SETMASK : Nat := 2

/-- `sys_rt_sigprocmask(how, set, oldset, sigsetsize)` acting on the
current thread's blocked mask: checks the sigset size, writes the old
mask through `oldset` (returned first), and applies the operation
verbatim for `SIG_BLOCK`/`SIG_UNBLOCK`/`SIG_SETMASK`, `EINVAL`
otherwise.  No bit is filtered out. -/
def sys_rt_sigprocmask (how : Nat) (set : Option Nat) (blocked : Nat) (sigsetsize : Nat) :
    Except LinuxErr (Nat × Nat) :=
  if sigsetsize ≠ 8 then .error .EINVAL
  else
    match set with
    | none => .ok (blocked, blocked)
    | some s =>
      if how = SIG_BLOCK then .ok (blocked, blocked ||| s)
      else if how = SIG_UNBLOCK then .ok (blocked, blocked &&& sigNotU64 s)
      else if how = SIG_SETMASK then .ok (blocked, s)
      else .error .EINVAL

/-- Bits below 64 of the u64 complement are the negated bits. -/
theorem sigNotU64_testBit (s i : Nat) (hi : i < 64) :
    (sigNotU64 s).testBit i = !s.testBit i := by
  have hm : MASK64.testBit i = true := by
    unfold MASK64
    rw [Nat.testBit_two_pow_sub_one]
    simpa using hi
  simp [sigNotU64, Nat.testBit_xor, Nat.testBit_land, hm]

/-- C5 counterexample: the claim says `sigprocmask` rejects attempts to
block `SIGKILL`; but `sys_rt_sigprocmask(SIG_BLOCK, {SIGKILL}, ..)`
succeeds and the resulting blocked mask contains `SIGKILL` (bit 8). -/
theorem C5_counterexample_block_sigkill :
    sys_rt_sigprocmask SIG_BLOCK (some (sigBit 9)) 0 8 = .ok (0, sigBit 9) ∧
    sigContains (sigBit 9) 9 = true := by
  exact ⟨rfl, by decide⟩

/-- C5 (amended): `sys_rt_sigprocmask` supports
`SIG_BLOCK`/`SIG_UNBLOCK`/`SIG_SETMASK` but applies the requested
operation with no filtering: for every signal `n` the new mask contains
`n` exactly as the plain union / difference / assignment dictates —
including `SIGKILL` and `SIGSTOP`, whose blocking is not rejected. -/
theorem C5_sigprocmask_no_filtering (blocked s n : Nat) (hn1 : 1 ≤ n) (hn64 : n ≤ 64) :
    (sys_rt_sigprocmask SIG_BLOCK (some s) blocked 8 = .ok (blocked, blocked ||| s) ∧
      sigContains (blocked ||| s) n = (sigContains blocked n || sigContains s n)) ∧
    (sys_rt_sigprocmask SIG_UNBLOCK (some s) blocked 8 =
        .ok (blocked, blocked &&& sigNotU64 s) ∧
      sigContains (blocked &&& sigNotU64 s) n = (sigContains blocked n && !sigContains s n)) ∧
    (sys_rt_sigprocmask SIG_SETMASK (some s) blocked 8 = .ok (blocked, s)) := by
  have hi : n - 1 < 64 := by omega
  refine ⟨⟨rfl, ?_⟩, ⟨rfl, ?_⟩, rfl⟩
  · simp [sigContains, Nat.testBit_lor]
  · simp [sigContains, Nat.testBit_land, sigNotU64_testBit s (n - 1) hi]

/-- C5 witness: the amended semantics at `blocked = 0`, `set` holding
exactly `SIGKILL`, checked at signal 9. -/
theorem C5_sigprocmask_no_filtering_witness :
    (sys_rt_sigprocmask SIG_BLOCK (some (sigBit 9)) 0 8 = .ok (0, 0 ||| sigBit 9) ∧
      sigContains (0 ||| sigBit 9) 9 = (sigContains 0 9 || sigContains (sigBit 9) 9)) ∧
    (sys_rt_sigprocmask SIG_UNBLOCK (some (sigBit 9)) 0 8 =
        .ok (0, 0 &&& sigNotU64 (sigBit 9)) ∧
      sigContains (0 &&& sigNotU64 (sigBit 9)) 9 =
        (sigContains 0 9 && !sigContains (sigBit 9) 9)) ∧
    (sys_rt_sigprocmask SIG_SETMASK (some (sigBit 9)) 0 8 = .ok (0, sigBit 9)) :=
  C5_sigprocmask_no_filtering 0 (sigBit 9) 9 (by decide) (by decide)

/-- `sys_rt_sigsuspend`'s mask installation (lines 327-338): read the
user set, remove `SIGKILL` and `SIGSTOP` from it, and atomically swap
it into the thread's blocked mask, returning the saved old mask. -/
def sys_rt_sigsuspend_install (set blocked : Nat) (sigsetsize : Nat) :
    Except LinuxErr (Nat × Nat) :=
  if sigsetsize ≠ 8 then .error .EINVAL
  else
    let s1 := sigRemove set 9
    let s2 := sigRemove s1 19
    .ok (s2, blocked)

/-- C9: the blocked mask `sys_rt_sigsuspend` installs while sleeping is
the caller's set with `SIGKILL` and `SIGSTOP` removed: it never
contains either of them, agrees with the caller's set on every other
signal, and the saved mask is the previous blocked mask. -/
theorem C9_sigsuspend_mask_sanitized (set blocked : Nat) :
    ∃ installed, sys_rt_sigsuspend_install set blocked 8 = .ok (installed, blocked) ∧
      sigContains installed 9 = false ∧
      sigContains installed 19 = false ∧
      ∀ n, 1 ≤ n → n ≤ 64 → n ≠ 9 → n ≠ 19 →
        sigContains installed n = sigContains set n := by
  refine ⟨sigRemove (sigRemove set 9) 19, rfl, ?_, ?_, ?_⟩
  · have hA : (sigNotU64 (sigBit 9)).testBit 8 = false := by decide
    simp [sigContains, sigRemove, Nat.testBit_land, hA]
  · have hB : (sigNotU64 (sigBit 19)).testBit 18 = false := by decide
    simp [sigContains, sigRemove, Nat.testBit_land, hB]
  · intro n h1 h64 h9 h19
    have hi : n - 1 < 64 := by omega
    have hb9 : (sigBit 9).testBit (n - 1) = false := by
      simp only [sigBit, Nat.one_shiftLeft, Nat.testBit_two_pow]
      simp only [decide_eq_false_iff_not]
      omega
    have hb19 : (sigBit 19).testBit (n - 1) = false := by
      simp only [sigBit, Nat.one_shiftLeft, Nat.testBit_two_pow]
      simp only [decide_eq_false_iff_not]
      omega
    simp [sigContains, sigRemove, Nat.testBit_land, sigNotU64_testBit _ _ hi, hb9, hb19]

/-- C9 witness: the sanitized suspend mask for the concrete set
`{SIGINT, SIGKILL, SIGSTOP}` with previous blocked mask `5`. -/
theorem C9_sigsuspend_mask_sanitized_witness :
    ∃ installed,
      sys_rt_sigsuspend_install (sigBit 2 ||| sigBit 9 ||| sigBit 19) 5 8 =
        .ok (installed, 5) ∧
      sigContains installed 9 = false ∧
      sigContains installed 19 = false ∧
      ∀ n, 1 ≤ n → n ≤ 64 → n ≠ 9 → n ≠ 19 →
        sigContains installed n = sigContains (sigBit 2 ||| sigBit 9 ||| sigBit 19) n :=
  C9_sigsuspend_mask_sanitized (sigBit 2 ||| sigBit 9 ||| sigBit 19) 5

/-! ## §C6: `sys_sigaltstack`

From src/api/src/imp/signal.rs lines 352-376.  The handler first
copies the currently installed stack out through `old_ss`, then — for a
non-null `ss` — rejects `ss.size <= MINSIGSTKSZ` with `ENOMEM`,
validates that the new stack region is user-accessible (modelled by
`userOk`; failure is `EFAULT`), and only then installs `ss`. -/

/-- `axsignal::SignalStack`. -/
structure SignalStack where
  sp : Nat
  flags : Nat
  size : Nat
  deriving DecidableEq, Repr

/-- `linux_raw_sys::general::MINSIGSTKSZ`. -/
def MINSIGSTKSZ : Nat := 2048

/-- `sys_sigaltstack(ss, old_ss)`: returns the call result together
with the alternate stack installed after the call. -/
def sys_sigaltstack (ss : Option SignalStack) (userOk : Bool) (stack : SignalStack) :
    Except LinuxErr Nat × SignalStack :=
  match ss with
  | none => (.ok 0, stack)
  | some s =>
    if s.size ≤ MINSIGSTKSZ then (.error .ENOMEM, stack)
    else if ¬ userOk then (.error .EFAULT, stack)
    else (.ok 0, s)

/-- C6: `sigaltstack` with a new stack of size `MINSIGSTKSZ` — and more
generally of any size below `MINSIGSTKSZ` — fails with `ENOMEM` and
leaves the installed alternate stack unchanged (the source uses `<=`,
which covers both cases). -/
theorem C6_sigaltstack_enomem (stack s : SignalStack) (userOk : Bool) :
    (s.size = MINSIGSTKSZ →
      sys_sigaltstack (some s) userOk stack = (.error .ENOMEM, stack)) ∧
    (s.size < MINSIGSTKSZ →
      sys_sigaltstack (some s) userOk stack = (.error .ENOMEM, stack)) := by
  constructor
  · intro h
    simp [sys_sigaltstack, h]
  · intro h
    simp [sys_sigaltstack, Nat.le_of_lt h]

/-- C6 witness: a stack of exactly `MINSIGSTKSZ` bytes and one of a
single byte are both rejected with `ENOMEM`, leaving the zero stack
installed. -/
theorem C6_sigaltstack_enomem_witness :
    sys_sigaltstack (some ⟨0x7000, 0, 2048⟩) true ⟨0, 0, 0⟩ =
      (.error .ENOMEM, ⟨0, 0, 0⟩) ∧
    sys_sigaltstack (some ⟨0x7000, 0, 1⟩) true ⟨0, 0, 0⟩ =
      (.error .ENOMEM, ⟨0, 0, 0⟩) :=
  ⟨(C6_sigaltstack_enomem ⟨0, 0, 0⟩ ⟨0x7000, 0, 2048⟩ true).1 (by decide),
   (C6_sigaltstack_enomem ⟨0, 0, 0⟩ ⟨0x7000, 0, 1⟩ true).2 (by decide)⟩

/-! ## §C7: `sys_clone` flag validation

From src/api/src/imp/task/clone.rs lines 90-101.  The low byte of the
flag word is the exit signal; the remaining bits go through
`CloneFlags::from_bits_truncate`, which keeps only the flag bits the
`bitflags!` block declares; `contains(VM | SIGHAND)` requires both
bits.  The `EINVAL` check precedes every task- or thread-creating step,
so nothing is created on that path. -/

/-- `CLONE_VM`. -/
def CLONE_VM : Nat := 0x100

/-- `CLONE_SIGHAND`. -/
def CLONE_SIGHAND : Nat := 0x800

/-- `CLONE_THREAD`. -/
def CLONE_THREAD : Nat := 0x10000

/-- The union of all flag bits declared in the `CloneFlags` bitflags
block (VM, FS, FILES, SIGHAND, PTRACE, VFORK, PARENT, THREAD, NEWNS,
SYSVSEM, SETTLS, PARENT_SETTID, CHILD_CLEARTID, UNTRACED, CHILD_SETTID,
NEWCGROUP, NEWUTS, NEWIPC, NEWUSER, NEWPID, NEWNET, IO). -/
def CLONE_KNOWN : Nat :=
  0x100 ||| 0x200 ||| 0x400 ||| 0x800 ||| 0x2000 ||| 0x4000 ||| 0x8000 ||| 0x10000 |||
  0x20000 ||| 0x40000 ||| 0x80000 ||| 0x100000 ||| 0x200000 ||| 0x800000 ||| 0x1000000 |||
  0x2000000 ||| 0x4000000 ||| 0x8000000 ||| 0x10000000 ||| 0x20000000 ||| 0x40000000 |||
  0x80000000

/-- `CloneFlags::from_bits_truncate`. -/
def cloneTruncate (bits : Nat) : Nat :=
  bits &&& CLONE_KNOWN

/-- `bitflags` `contains`: all bits of `req` are present. -/
def hasFlags (flags req : Nat) : Bool :=
  decide (flags &&& req = req)

/-- The tasks registered with the scheduler. -/
structure TaskState where
  tids : List Nat
  deriving DecidableEq, Repr

/-- `sys_clone(flags, ..)` reduced to its flag handling and its effect
on the task set: split the exit signal off the low byte, truncate to
the known flags, fail with `EINVAL` when `THREAD` is set without both
`VM` and `SIGHAND` (before any creation), and otherwise register the
new task and return its tid. -/
def sys_clone_flags (flags : Nat) (st : TaskState) (newTid : Nat) :
    Except LinuxErr (TaskState × Nat) :=
  let f := cloneTruncate (flags &&& 0xFFFFFF00)
  if hasFlags f CLONE_THREAD && !hasFlags f (CLONE_VM ||| CLONE_SIGHAND) then
    .error .EINVAL
  else
    .ok ({ tids := st.tids ++ [newTid] }, newTid)

/-- C7: `clone` with `THREAD` set but without both `VM` and `SIGHAND`
fails with `EINVAL`, and no new task or thread is created (the error
return precedes every creation step, so the task set is untouched). -/
theorem C7_clone_thread_einval (flags : Nat) (st : TaskState) (newTid : Nat)
    (hthread : hasFlags (cloneTruncate (flags &&& 0xFFFFFF00)) CLONE_THREAD = true)
    (hboth : hasFlags (cloneTruncate (flags &&& 0xFFFFFF00)) (CLONE_VM ||| CLONE_SIGHAND)
      = false) :
    sys_clone_flags flags st newTid = .error .EINVAL := by
  simp [sys_clone_flags, hthread, hboth]

/-- C7 witness: `flags = CLONE_THREAD | SIGCHLD` (exit signal 17,
`THREAD` without `VM`/`SIGHAND`) is rejected with `EINVAL`. -/
theorem C7_clone_thread_einval_witness :
    sys_clone_flags (CLONE_THREAD ||| 17) ⟨[1]⟩ 2 = .error .EINVAL :=
  C7_clone_thread_einval (CLONE_THREAD ||| 17) ⟨[1]⟩ 2 (by decide) (by decide)

/-! ## §C8: `sys_futex` FUTEX_WAIT

From src/api/src/imp/futex.rs lines 28-41 and src/core/src/futex.rs
lines 28-38.  The futex table (`BTreeMap<usize, Arc<WaitQueue>>`) is an
association list from addresses to queues; a queue holds the queued
tids with their optional timeouts.  Lookups are by key, so the
insertion position is irrelevant.  `mem` models user memory
(`get_as_ref` fails with `EFAULT` on an unmapped address). -/

/-- A futex wait queue: queued tasks with their optional timeouts. -/
abbrev FutexQueue : Type :=
  List (Nat × Option Nat)

/-- The futex table of one process. -/
structure FutexTableM where
  entries : List (Nat × FutexQueue)

/-- Key lookup among the table entries. -/
def qLookup (es : List (Nat × FutexQueue)) (addr : Nat) : Option FutexQueue :=
  (es.find? (fun e => e.1 = addr)).map (fun e => e.2)

/-- The queue registered for `addr`. -/
def ftLookup (t : FutexTableM) (addr : Nat) : Option FutexQueue :=
  qLookup t.entries addr

/-- `FutexTable::get_or_insert(addr)`: keep the existing queue or
register a fresh empty one. -/
def ftGetOrInsert (t : FutexTableM) (addr : Nat) : FutexTableM :=
  match ftLookup t addr with
  | some _ => t
  | none => { entries := t.entries ++ [(addr, [])] }

/-- `WaitQueue::wait` / `wait_timeout` on the queue at `addr`: append
the current task (with its timeout, when supplied). -/
def ftEnqueue (t : FutexTableM) (addr tid : Nat) (timeout : Option Nat) : FutexTableM :=
  { entries :=
      t.entries.map (fun e => if e.1 = addr then (e.1, e.2 ++ [(tid, timeout)]) else e) }

/-- The `FUTEX_WAIT` arm of `sys_futex(uaddr, op, value, timeout, ..)`:
fault on an unmapped word, `EAGAIN` when the word differs from `value`
(without touching the table), otherwise queue the caller on
`get_or_insert(addr)`.  Returns the result and the futex table after
the call. -/
def sys_futex_wait (mem : Nat → Option Nat) (addr val : Nat) (timeout : Option Nat)
    (tid : Nat) (t : FutexTableM) : Except LinuxErr Unit × FutexTableM :=
  match mem addr with
  | none => (.error .EFAULT, t)
  | some v =>
    if v ≠ val then (.error .EAGAIN, t)
    else (.ok (), ftEnqueue (ftGetOrInsert t addr) addr tid timeout)

/-- Key lookup on a one-longer entry list. -/
theorem qLookup_cons (e : Nat × FutexQueue) (es : List (Nat × FutexQueue)) (addr : Nat) :
    qLookup (e :: es) addr = if e.1 = addr then some e.2 else qLookup es addr := by
  simp only [qLookup, List.find?]
  by_cases h : e.1 = addr
  · simp [h]
  · simp [h]

/-- Appending a fresh empty queue for a key that is absent makes the
key resolve to the empty queue. -/
theorem qLookup_append_fresh (es : List (Nat × FutexQueue)) (addr : Nat)
    (h : qLookup es addr = none) :
    qLookup (es ++ [(addr, [])]) addr = some [] := by
  induction es with
  | nil => simp [qLookup_cons]
  | cons e rest ih =>
    rw [qLookup_cons] at h
    by_cases he : e.1 = addr
    · rw [if_pos he] at h
      exact Option.noConfusion h
    · rw [if_neg he] at h
      rw [List.cons_append, qLookup_cons, if_neg he]
      exact ih h

/-- Enqueueing appends to exactly the queue registered at the key. -/
theorem qLookup_enqlist (es : List (Nat × FutexQueue)) (addr tid : Nat)
    (timeout : Option Nat) :
    qLookup (es.map (fun e => if e.1 = addr then (e.1, e.2 ++ [(tid, timeout)]) else e)) addr =
      (qLookup es addr).map (fun q => q ++ [(tid, timeout)]) := by
  induction es with
  | nil => simp [qLookup]
  | cons e rest ih =>
    rw [List.map_cons]
    by_cases he : e.1 = addr
    · rw [if_pos he, qLookup_cons, qLookup_cons, if_pos he]
      simp [he]
    · rw [if_neg he, qLookup_cons, qLookup_cons, if_neg he, if_neg he]
      exact ih

/-- `qLookup_enqlist` restated through the table wrappers. -/
theorem qLookup_enqueue (t : FutexTableM) (addr tid : Nat) (timeout : Option Nat) :
    ftLookup (ftEnqueue t addr tid timeout) addr =
      (ftLookup t addr).map (fun q => q ++ [(tid, timeout)]) :=
  qLookup_enqlist t.entries addr tid timeout

/-- C8: with a valid user pointer, `FUTEX_WAIT` returns `EAGAIN` and
leaves the futex table untouched when the word at `uaddr` differs from
`val`; when it equals `val`, the caller is appended (with its optional
timeout) to the wait queue obtained by `get_or_insert(uaddr)` — the
existing queue at that address, or a fresh one. -/
theorem C8_futex_wait_semantics (mem : Nat → Option Nat) (addr val v : Nat)
    (timeout : Option Nat) (tid : Nat) (t : FutexTableM) :
    (mem addr = some v → v ≠ val →
      sys_futex_wait mem addr val timeout tid t = (.error .EAGAIN, t)) ∧
    (mem addr = some val →
      sys_futex_wait mem addr val timeout tid t =
        (.ok (), ftEnqueue (ftGetOrInsert t addr) addr tid timeout) ∧
      ftLookup (sys_futex_wait mem addr val timeout tid t).2 addr =
        some ((ftLookup t addr).getD [] ++ [(tid, timeout)])) := by
  constructor
  · intro hm hne
    simp [sys_futex_wait, hm, hne]
  · intro hm
    have hrun : sys_futex_wait mem addr val timeout tid t =
        (.ok (), ftEnqueue (ftGetOrInsert t addr) addr tid timeout) := by
      simp [sys_futex_wait, hm]
    refine ⟨hrun, ?_⟩
    rw [hrun]
    rw [qLookup_enqueue]
    cases hq : ftLookup t addr with
    | some q =>
      unfold ftGetOrInsert
      rw [hq]
      simp [hq]
    | none =>
      unfold ftGetOrInsert
      rw [hq]
      have : ftLookup { entries := t.entries ++ [(addr, [])] } addr = some [] :=
        qLookup_append_fresh t.entries addr hq
      rw [this]
      simp

/-- C8 witness: a mismatching word yields `EAGAIN` with the table
unchanged; a matching word queues tid 7 with timeout 50 on the fresh
queue for address `0x40`. -/
theorem C8_futex_wait_semantics_witness :
    (sys_futex_wait (fun _ => some 3) 0x40 4 (some 50) 7 ⟨[]⟩ =
      (.error .EAGAIN, ⟨[]⟩)) ∧
    ftLookup (sys_futex_wait (fun _ => some 4) 0x40 4 (some 50) 7 ⟨[]⟩).2 0x40 =
      some [(7, some 50)] :=
  ⟨(C8_futex_wait_semantics (fun _ => some 3) 0x40 4 3 (some 50) 7 ⟨[]⟩).1 rfl (by decide),
   ((C8_futex_wait_semantics (fun _ => some 4) 0x40 4 4 (some 50) 7 ⟨[]⟩).2 rfl).2⟩

/-! ## §C10: `FD_TABLE::copy_inner` and the clone-without-FILES path

From src/api/src/file/mod.rs lines 117-135 and
src/api/src/imp/task/clone.rs lines 162-170.  A
`FlattenObjects<Arc<dyn FileLike>, 1024>` is a slot array mapping a
descriptor to a file object; `Arc` sharing is modelled by a numeric
file-object id, so two slots holding the same id are reference-counted
clones of one object.  The per-process resource namespace is a map from
a table handle to its table; `init_new(copy_inner())` allocates a fresh
handle for the copied table, while `init_shared(share())` reuses the
parent's. -/

/-- `AX_FILE_LIMIT`. -/
def AX_FILE_LIMIT : Nat := 1024

/-- A `FlattenObjects` slot table: descriptor to file-object id. -/
abbrev FdTbl : Type := Nat → Option Nat

/-- The empty slot table. -/
def fdEmpty : FdTbl := fun _ => none

/-- `FlattenObjects::ids()`: the occupied slots in ascending order. -/
def fdIds (t : FdTbl) : List Nat :=
  (List.range AX_FILE_LIMIT).filter (fun i => (t i).isSome)

/-- `FlattenObjects::add_at(id, value)`: occupy a free in-range slot;
returns the table and whether the add succeeded. -/
def fdAddAt (t : FdTbl) (id v : Nat) : FdTbl × Bool :=
  if id < AX_FILE_LIMIT ∧ (t id).isNone then (Function.update t id (some v), true)
  else (t, false)

/-- `FD_TABLE::copy_inner()`: rebuild a fresh table by `add_at`-ing, for
every occupied id of the source, a clone of the `Arc` stored there. -/
def copy_inner (t : FdTbl) : FdTbl :=
  (fdIds t).foldl (fun acc id => (fdAddAt acc id ((t id).getD 0)).1) fdEmpty

/-- The `copy_inner` fold over a duplicate-free id list fills exactly
those ids. -/
theorem copyFold_spec (t : FdTbl) :
    ∀ (L : List Nat) (acc : FdTbl),
      L.Nodup →
      (∀ id ∈ L, id < AX_FILE_LIMIT ∧ acc id = none) →
      ∀ i, (L.foldl (fun acc id => (fdAddAt acc id ((t id).getD 0)).1) acc) i =
        if i ∈ L then some ((t i).getD 0) else acc i := by
  intro L
  induction L with
  | nil =>
    intro acc _ _ i
    simp
  | cons id rest ih =>
    intro acc hnd hpre i
    have hid := hpre id (List.mem_cons_self _ _)
    have hnone : (acc id).isNone := by
      rw [hid.2]
      rfl
    have hstep : (fdAddAt acc id ((t id).getD 0)).1 =
        Function.update acc id (some ((t id).getD 0)) := by
      unfold fdAddAt
      rw [if_pos ⟨hid.1, hnone⟩]
    rw [List.foldl_cons, hstep,
      ih (Function.update acc id (some ((t id).getD 0))) (List.nodup_cons.mp hnd).2
        (by
          intro q hq
          refine ⟨(hpre q (List.mem_cons_of_mem _ hq)).1, ?_⟩
          rw [Function.update_noteq
            (fun h : q = id => (List.nodup_cons.mp hnd).1 (h ▸ hq))]
          exact (hpre q (List.mem_cons_of_mem _ hq)).2) i]
    by_cases hir : i ∈ rest
    · rw [if_pos hir, if_pos (List.mem_cons_of_mem _ hir)]
    · rw [if_neg hir]
      by_cases hii : i = id
      · subst hii
        rw [Function.update_same, if_pos (List.mem_cons_self _ _)]
      · rw [Function.update_noteq hii,
          if_neg (fun h => (List.mem_cons.mp h).elim hii hir)]

/-- `copy_inner` reproduces the source table pointwise: a descriptor is
present in the copy iff it is present in the source, bound to the same
file object. -/
theorem copy_inner_spec (t : FdTbl) (hcap : ∀ i, AX_FILE_LIMIT ≤ i → t i = none) :
    ∀ fd, copy_inner t fd = t fd := by
  intro fd
  unfold copy_inner
  rw [copyFold_spec t (fdIds t) fdEmpty (List.Nodup.filter _ (List.nodup_range _))
    (by
      intro q hq
      have := List.mem_filter.mp hq
      exact ⟨List.mem_range.mp this.1, rfl⟩) fd]
  by_cases hm : fd ∈ fdIds t
  · have hsome : (t fd).isSome := by
      have := List.mem_filter.mp hm
      simpa using this.2
    rw [if_pos hm]
    cases h : t fd with
    | none =>
      rw [h] at hsome
      simp at hsome
    | some v => rfl
  · rw [if_neg hm]
    by_cases hlt : fd < AX_FILE_LIMIT
    · cases h : t fd with
      | none => rfl
      | some v =>
        exfalso
        apply hm
        unfold fdIds
        refine List.mem_filter.mpr ⟨List.mem_range.mpr hlt, ?_⟩
        rw [h]
        rfl
    · exact (hcap fd (Nat.le_of_not_lt hlt)).symm

/-- The per-process table namespace: table handles to tables.  Handles
below `nextId` are live. -/
structure FdStoreF where
  tbls : Nat → FdTbl
  nextId : Nat

/-- The FD-table part of `sys_clone`: with `FILES` the child shares the
parent's handle; without it a fresh handle is initialized with
`copy_inner` of the parent's table.  Returns the store and the child's
handle. -/
def cloneFdTable (st : FdStoreF) (parent : Nat) (shareFiles : Bool) : FdStoreF × Nat :=
  if shareFiles then (st, parent)
  else
    ({ tbls := Function.update st.tbls st.nextId (copy_inner (st.tbls parent)),
       nextId := st.nextId + 1 },
     st.nextId)

/-- A later table operation (add, remove, ...) applied through one
handle. -/
def storeModify (st : FdStoreF) (idx : Nat) (f : FdTbl → FdTbl) : FdStoreF :=
  { st with tbls := Function.update st.tbls idx (f (st.tbls idx)) }

/-- C10: cloning without `FILES` copies the FD table: every descriptor
of the copy names the same file object as the parent's table (and
absent descriptors stay absent); the child's handle is distinct from
the parent's, and any later operation applied through one handle leaves
the table behind the other handle unchanged. -/
theorem C10_fd_table_copy (st : FdStoreF) (parent : Nat)
    (hp : parent < st.nextId)
    (hcap : ∀ i, AX_FILE_LIMIT ≤ i → st.tbls parent i = none) :
    (∀ fd,
      (cloneFdTable st parent false).1.tbls (cloneFdTable st parent false).2 fd =
        st.tbls parent fd) ∧
    (cloneFdTable st parent false).2 ≠ parent ∧
    (∀ f fd,
      (storeModify (cloneFdTable st parent false).1 (cloneFdTable st parent false).2 f).tbls
          parent fd =
        (cloneFdTable st parent false).1.tbls parent fd) ∧
    (∀ f fd,
      (storeModify (cloneFdTable st parent false).1 parent f).tbls
          (cloneFdTable st parent false).2 fd =
        (cloneFdTable st parent false).1.tbls (cloneFdTable st parent false).2 fd) := by
  have hne : st.nextId ≠ parent := fun h => absurd hp (h ▸ Nat.lt_irrefl _)
  refine ⟨?_, ?_, ?_, ?_⟩
  · intro fd
    show Function.update st.tbls st.nextId (copy_inner (st.tbls parent)) st.nextId fd =
      st.tbls parent fd
    rw [Function.update_same]
    exact copy_inner_spec (st.tbls parent) hcap fd
  · exact hne
  · intro f fd
    show Function.update
        (Function.update st.tbls st.nextId (copy_inner (st.tbls parent))) st.nextId
        (f (Function.update st.tbls st.nextId (copy_inner (st.tbls parent)) st.nextId))
        parent fd =
      Function.update st.tbls st.nextId (copy_inner (st.tbls parent)) parent fd
    rw [Function.update_noteq (fun h : parent = st.nextId => hne h.symm)]
  · intro f fd
    show Function.update
        (Function.update st.tbls st.nextId (copy_inner (st.tbls parent))) parent
        (f (Function.update st.tbls st.nextId (copy_inner (st.tbls parent)) parent))
        st.nextId fd =
      Function.update st.tbls st.nextId (copy_inner (st.tbls parent)) st.nextId fd
    rw [Function.update_noteq hne]

/-- A concrete parent table holding descriptors 0 and 2. -/
def fdTblW : FdTbl :=
  fun i => if i = 0 then some 10 else if i = 2 then some 11 else none

/-- C10 witness: copying the concrete two-descriptor table preserves
descriptor 2 (same object id 11) and keeps parent and child tables
independent under a later modification through the child's handle. -/
theorem C10_fd_table_copy_witness :
    (cloneFdTable ⟨fun _ => fdTblW, 1⟩ 0 false).1.tbls
        (cloneFdTable ⟨fun _ => fdTblW, 1⟩ 0 false).2 2 = fdTblW 2 ∧
    (storeModify (cloneFdTable ⟨fun _ => fdTblW, 1⟩ 0 false).1
        (cloneFdTable ⟨fun _ => fdTblW, 1⟩ 0 false).2
        (fun tb => Function.update tb 2 none)).tbls 0 2 =
      (cloneFdTable ⟨fun _ => fdTblW, 1⟩ 0 false).1.tbls 0 2 := by
  have h := C10_fd_table_copy ⟨fun _ => fdTblW, 1⟩ 0 (by decide)
    (by
      intro i hi
      unfold AX_FILE_LIMIT at hi
      have h0 : i ≠ 0 := by omega
      have h2 : i ≠ 2 := by omega
      simp [fdTblW, h0, h2])
  exact ⟨h.1 2, h.2.2.1 (fun tb => Function.update tb 2 none) 2⟩
